import Mathlib

/-!
A shallow embedding of `src/scope_analyzer.py` (the scope-aware
type-inference and stub-generation engine of Stubs-AutoGen), together with
theorems settling the specification claims about it.

Modelling conventions:
* C type spellings are `String`s, exactly as in the Python code.
* Python `dict`s (the stub registry, a scope frame's symbol table) are
  association lists that keep insertion order; assignment replaces in place
  and otherwise appends, matching CPython's insertion-ordered dicts.
* Python's `x or default` idiom (used on `Optional[str]` values and on
  joined strings) is modelled by `pyOr` / `pyOrS`, which treat both `None`
  and the empty string as falsy, exactly like Python truthiness.
* Callbacks (`Callable[[str], None]`) are opaque handles (`Nat`); invoking
  a callback is modelled by emitting the pair (handle, argument) into an
  invocation log returned alongside the new record, so that "each callback
  is invoked exactly once with argument t" becomes a statement about the log.
* The AST visitor threads an explicit state (scope stack plus registry) and
  additionally returns a ghost trace of scope push/pop events used to state
  the stack-discipline invariants; the state component is a direct
  transcription of the Python visitor.
-/

namespace ScopeAnalyzer

/-- Python truthiness on strings: `s or d` yields `d` when `s` is empty. -/
def pyOrS (s d : String) : String := if s = "" then d else s

/-- Python truthiness on `Optional[str]`: `o or d`. -/
def pyOr (o : Option String) (d : String) : String :=
  match o with
  | Option.some s => pyOrS s d
  | Option.none => d

/-- Python `sep.join(xs)`. -/
def pyJoin (sep : String) : List String → String
  | [] => ""
  | [x] => x
  | x :: y :: rest => x ++ sep ++ pyJoin sep (y :: rest)

/-- The whitespace characters removed by Python's `str.strip()`. -/
def pySpace (c : Char) : Bool :=
  c = ' ' || c = '\t' || c = '\n' || c = '\r' || c = '\x0b' || c = '\x0c'

/-- Python `s.strip()`: remove leading and trailing whitespace. -/
def pyStrip (s : String) : String :=
  String.mk (((s.data.dropWhile pySpace).reverse.dropWhile pySpace).reverse)

/-- Association-list read, modelling `dict.get` / `dict[k]` lookup. -/
def lookupA {α : Type} (m : List (String × α)) (k : String) : Option α :=
  match m with
  | [] => Option.none
  | (k', v') :: rest => if k' = k then Option.some v' else lookupA rest k

/-- Association-list write, modelling `dict[k] = v` on an insertion-ordered
dict: replace in place when the key is present, append otherwise. -/
def updA {α : Type} (m : List (String × α)) (k : String) (v : α) :
    List (String × α) :=
  match m with
  | [] => [(k, v)]
  | (k', v') :: rest =>
      if k' = k then (k, v) :: rest else (k', v') :: updA rest k v

/-- `StubInfo` from the source: metadata for a function that may need a stub.
`cbs` is the `_cbs` callback list, with callbacks as opaque handles. -/
structure StubInfo where
  is_stub : Bool
  ret_type : String
  param_types : List String
  cbs : List Nat
deriving DecidableEq, Repr

/-- `StubInfo.fire(real)`: set `ret_type` to `real`, invoke every registered
callback with `real`, clear the callback list.  The second component is the
invocation log (callback handle, argument passed). -/
def StubInfo.fire (s : StubInfo) (real : String) :
    StubInfo × List (Nat × String) :=
  ({ s with ret_type := real, cbs := [] }, s.cbs.map (fun cb => (cb, real)))

/-- `StubInfo.post_fire()`: invoke every registered callback with the current
`ret_type`, clear the callback list. -/
def StubInfo.post_fire (s : StubInfo) : StubInfo × List (Nat × String) :=
  ({ s with cbs := [] }, s.cbs.map (fun cb => (cb, s.ret_type)))

/-- `ScopeFrame` from the source. -/
structure ScopeFrame where
  symbols : List (String × String)
  is_func : Bool
  ret_type : Option String
deriving DecidableEq, Repr

/-- The scope stack, top frame first (the Python code appends the top frame
at the end of a list and iterates it reversed; head-first is the same
order of consultation). -/
abbrev Scope := List ScopeFrame

/-- The stub registry (`Dict[str, StubInfo]`). -/
abbrev Stubs := List (String × StubInfo)

/-- `ScopeStack.push_block()`. -/
def push_block (st : Scope) : Scope := ScopeFrame.mk [] false Option.none :: st

/-- `ScopeStack.push_func(ret)`. -/
def push_func (st : Scope) (ret : String) : Scope :=
  ScopeFrame.mk [] true (Option.some ret) :: st

/-- `ScopeStack.pop()`. -/
def pop (st : Scope) : Scope := st.tail

/-- `ScopeStack.add_var(name, typ)`: insert/overwrite in the top frame. -/
def add_var (st : Scope) (name typ : String) : Scope :=
  match st with
  | [] => []
  | f :: rest => { f with symbols := updA f.symbols name typ } :: rest

/-- `ScopeStack.find_var(name)`: walk frames top-down, first hit wins. -/
def find_var : Scope → String → Option String
  | [], _ => Option.none
  | f :: rest, n =>
      match lookupA f.symbols n with
      | Option.some t => Option.some t
      | Option.none => find_var rest n

/-- `ScopeStack.enclosing_ret()`: nearest function frame's return type. -/
def enclosing_ret : Scope → Option String
  | [] => Option.none
  | f :: rest => if f.is_func then f.ret_type else enclosing_ret rest

/-- pycparser type nodes, as consumed by `type_to_str`.  A `FuncDecl`'s
argument list holds the parameter declarations' `.type` nodes. -/
inductive CType where
  | IdentifierType (names : List String)
  | Struct (name : Option String)
  | Union (name : Option String)
  | Enum (name : Option String)
  | TypeDecl (t : CType)
  | PtrDecl (t : CType)
  | ArrayDecl (t : CType) (dim : Option String)
  | FuncDecl (t : CType) (args : Option (List CType))
  | OtherType (clsName : String)

mutual

/-- `type_to_str`: recursively convert a type node into a C-type string. -/
def type_to_str : CType → String
  | .IdentifierType names => pyJoin " " names
  | .Struct n => "struct " ++ pyOr n "anon"
  | .Union n => "union " ++ pyOr n "anon"
  | .Enum n => "enum " ++ pyOr n "anon"
  | .TypeDecl t => type_to_str t
  | .PtrDecl t => type_to_str t ++ "*"
  | .ArrayDecl t dim =>
      type_to_str t ++ "[" ++ (match dim with
        | Option.some d => d
        | Option.none => "") ++ "]"
  | .FuncDecl t args =>
      type_to_str t ++ " (" ++ (match args with
        | Option.some ps => type_list_to_str ps
        | Option.none => "") ++ ")"
  | .OtherType clsName => clsName

/-- `', '.join(type_to_str(p.type) for p in params)`. -/
def type_list_to_str : List CType → String
  | [] => ""
  | [p] => type_to_str p
  | p :: q :: rest => type_to_str p ++ ", " ++ type_list_to_str (q :: rest)

end

mutual

/-- The pycparser AST node shapes the visitor distinguishes.  `Other`
stands for any node kind without a dedicated `visit_X` method; the generic
visitor just walks its children.  A `FuncDef` carries the declared return
type, the parameter declarations (name, type) and the body compound's
statement list, mirroring the fields the Python visitor reads. -/
inductive CNode where
  | ID (name : String)
  | Const (val : String)
  | UnaryOp (op : String) (e : CNode)
  | FuncCall (callee : CNode) (args : CList)
  | Return (e : COpt)
  | Decl (name : String) (ty : CType) (init : COpt)
  | FuncDef (retTy : CType) (params : List (String × CType)) (body : CList)
  | Compound (items : CList)
  | Other (children : CList)

/-- A list of sibling nodes (an `ExprList` / block-item list; `nil` also
models Python `None` argument lists, which are equally falsy). -/
inductive CList where
  | nil
  | cons (hd : CNode) (tl : CList)

/-- An optional child node. -/
inductive COpt where
  | none
  | some (e : CNode)

end

/-- `infer_expr_type(expr, scope, stubs)`: returns the inferred type string
and the (possibly extended) registry — the Python function mutates `stubs`
in place when it meets an unknown nested callee. -/
def infer_expr_type : CNode → Scope → Stubs → String × Stubs
  | .ID n, scope, stubs => (pyOr (find_var scope n) "void*", stubs)
  | .UnaryOp op e, scope, stubs =>
      if op = "&" then
        let r := infer_expr_type e scope stubs
        (r.1 ++ " *", r.2)
      else ("int", stubs)
  | .FuncCall (.ID fname) _, _, stubs =>
      (match lookupA stubs fname with
       | Option.some info => (info.ret_type, stubs)
       | Option.none =>
           ("void*", updA stubs fname (StubInfo.mk true "void*" [] [])))
  | _, _, stubs => ("int", stubs)

/-- The argument loop of `visit_FuncCall`: infer each argument in order,
threading the registry. -/
def infer_arg_list : CList → Scope → Stubs → List String × Stubs
  | .nil, _, stubs => ([], stubs)
  | .cons a rest, scope, stubs =>
      let r := infer_expr_type a scope stubs
      let rs := infer_arg_list rest scope r.2
      (r.1 :: rs.1, rs.2)

/-- `param_types` collection in `visit_FuncCall`: an absent/empty argument
list yields the single parameter type `void`. -/
def collect_param_types (args : CList) (scope : Scope) (stubs : Stubs) :
    List String × Stubs :=
  match args with
  | .nil => (["void"], stubs)
  | .cons a rest => infer_arg_list (.cons a rest) scope stubs

/-- The visitor state: the scope stack and the stub registry. -/
structure VState where
  scope : Scope
  stubs : Stubs
deriving Repr

/-- The registry upsert of `visit_FuncCall`: if a record exists, overwrite
only its parameter-type list; otherwise create a fresh unresolved record
with opaque-pointer return type. -/
def call_upsert (fname : String) (ptypes : List String) (stubs : Stubs) :
    Stubs :=
  match lookupA stubs fname with
  | Option.some info => updA stubs fname { info with param_types := ptypes }
  | Option.none => updA stubs fname (StubInfo.mk true "void*" ptypes [])

/-- Ghost scope event: a frame push or pop performed during the walk. -/
inductive Ev where
  | push
  | pop
deriving DecidableEq, Repr

/-- The pre-recursion step of `visit_Return`: when the returned expression
is a direct call to an interesting name that has no registry record yet,
create its record with the enclosing function's return type (opaque pointer
when no enclosing function return type is known). -/
def return_step (I : List String) (s : VState) : COpt → VState
  | .some (.FuncCall (.ID callee) _) =>
      if callee ∈ I ∧ lookupA s.stubs callee = Option.none then
        let created := StubInfo.mk true (pyOr (enclosing_ret s.scope) "void*") [] []
        { s with stubs := updA s.stubs callee created }
      else s
  | _ => s

mutual

/-- `TUVisitor.visit` dispatch, one translation-unit walk.  The first
component of the result is the real state transformation transcribed from
the Python code; the second is the ghost push/pop event trace. -/
def visit (I : List String) : CNode → VState → VState × List Ev
  | .ID _, s => (s, [])
  | .Const _, s => (s, [])
  | .UnaryOp _ e, s => visit I e s
  | .Other cs, s => visit_list I cs s
  | .Decl name ty init, s =>
      let s1 : VState := { s with scope := add_var s.scope name (type_to_str ty) }
      visit_opt I init s1
  | .FuncDef retTy params body, s =>
      let sc2 := params.foldl (fun sc p => add_var sc p.1 (type_to_str p.2))
        (push_func s.scope (type_to_str retTy))
      let r := visit_list I body { s with scope := sc2 }
      ({ r.1 with scope := pop r.1.scope }, Ev.push :: r.2 ++ [Ev.pop])
  | .Compound items, s =>
      let r := visit_list I items { s with scope := push_block s.scope }
      ({ r.1 with scope := pop r.1.scope }, Ev.push :: r.2 ++ [Ev.pop])
  | .FuncCall callee args, s =>
      (match callee with
       | .ID fname =>
           if fname ∈ I then
             let pr := collect_param_types args s.scope s.stubs
             visit_list I args { s with stubs := call_upsert fname pr.1 pr.2 }
           else visit_list I args s
       | c =>
           let r1 := visit I c s
           let r2 := visit_list I args r1.1
           (r2.1, r1.2 ++ r2.2))
  | .Return e, s =>
      visit_opt I e (return_step I s e)

/-- Visit a list of sibling nodes in source order. -/
def visit_list (I : List String) : CList → VState → VState × List Ev
  | .nil, s => (s, [])
  | .cons x rest, s =>
      let r1 := visit I x s
      let r2 := visit_list I rest r1.1
      (r2.1, r1.2 ++ r2.2)

/-- Visit an optional child node. -/
def visit_opt (I : List String) : COpt → VState → VState × List Ev
  | .none, s => (s, [])
  | .some e, s => visit I e s

end

/-- The fresh visitor state of `TUVisitor.__init__`: one global frame,
empty registry. -/
def init_state : VState :=
  VState.mk [ScopeFrame.mk [] false Option.none] []

/-- One whole translation-unit walk (`vis.visit(ast)` on a `FileAST` whose
external declarations are `tu`). -/
def walk_tu (I : List String) (tu : CList) : VState × List Ev :=
  visit_list I tu init_state

/-- One rendered stub (the `STUB_TEMPLATE.format(...)` expression of
`emit_stubs`, for a single registry entry). -/
def render_stub (name : String) (info : StubInfo) : String :=
  let params := pyOrS (pyJoin ", " info.param_types) "void"
  let dummy := pyOrS
    (pyJoin ", " ((List.range info.param_types.length).map
      (fun i => "arg" ++ toString i))) "0"
  let ret_stmt := if pyStrip info.ret_type = "void" then "" else "    return 0;"
  info.ret_type ++ " " ++ name ++ "(" ++ params ++ ") \x7b\n    (void)" ++
    dummy ++ ";\n" ++ ret_stmt ++ "\x7d\n"

/-- The pieces list built by `emit_stubs` (records not flagged as stubs are
skipped). -/
def emit_pieces (stubs : Stubs) : List String :=
  (stubs.filter (fun p => p.2.is_stub)).map (fun p => render_stub p.1 p.2)

/-- The text written by `emit_stubs`. -/
def emit_stubs (stubs : Stubs) : String :=
  pyJoin "\n\n" (emit_pieces stubs)

/-! ## Auxiliary definitions used to state the claims -/

/-- Pointer depth of a rendered C type string: the number of `*` marks. -/
def pointer_depth (t : String) : Nat := (t.data).count '*'

/-- Replay a push/pop event trace from a starting depth; `Option.none`
signals an attempt to pop below the starting depth. -/
def runDepth (d : Nat) : List Ev → Option Nat
  | [] => Option.some d
  | Ev.push :: r => runDepth (d + 1) r
  | Ev.pop :: r =>
      match d with
      | 0 => Option.none
      | d' + 1 => runDepth d' r

/-- A list of plain identifier argument expressions. -/
def idCList (names : List String) : CList :=
  names.foldr (fun n acc => .cons (.ID n) acc) .nil

/-- The argument types `visit_FuncCall` observes for plain identifier
arguments, stated independently of the visitor: each name resolved in the
scope (opaque pointer when unbound), and a single `void` when the argument
list is empty. -/
def id_arg_types (scope : Scope) (names : List String) : List String :=
  match names with
  | [] => ["void"]
  | _ => names.map (fun n => pyOr (find_var scope n) "void*")

/-- Whether `pat` occurs as a leading chunk of `l`. -/
def startsChunk : List Char → List Char → Bool
  | [], _ => true
  | _ :: _, [] => false
  | a :: p, b :: l => a = b && startsChunk p l

/-- Whether `pat` occurs as a contiguous chunk anywhere inside `l`. -/
def hasChunk (pat : List Char) : List Char → Bool
  | [] => startsChunk pat []
  | l@(_ :: t) => startsChunk pat l || hasChunk pat t

/-- Claim C1 counterexample input, the backward-reference scenario:
`FOO_TYPE compute() { worker(); return worker(); }` — the call site is
visited before the return statement. -/
def backwardTU : CList :=
  .cons (.FuncDef (.IdentifierType ["FOO_TYPE"]) []
    (.cons (.FuncCall (.ID "worker") .nil)
      (.cons (.Return (.some (.FuncCall (.ID "worker") .nil))) .nil))) .nil

/-- Claim C4 counterexample input: `f(g())` with whitelist `[f]` — the
callee `g` is nested inside an inferred argument and is not whitelisted. -/
def nestedCallTU : CList :=
  .cons (.FuncCall (.ID "f") (.cons (.FuncCall (.ID "g") .nil) .nil)) .nil

/-- Claim C6 example registry: one stub record with one parameter. -/
def helperReg : Stubs := [("helper", StubInfo.mk true "void*" ["int*"] [])]

/-- A minimal translation unit: a single call `f()` at top level. -/
def oneCallTU : CList := .cons (.FuncCall (.ID "f") .nil) .nil

/-- The registry invariant maintained by the whole engine: every record is
flagged as a stub and carries no pending callbacks. -/
def reg_ok : Stubs → Prop
  | [] => True
  | p :: rest => (p.2.is_stub = true ∧ p.2.cbs = []) ∧ reg_ok rest

/-! ## General lemmas about the embedded operations -/

theorem data_append (s t : String) : (s ++ t).data = s.data ++ t.data := rfl

theorem runDepth_push (d : Nat) (r : List Ev) :
    runDepth d (Ev.push :: r) = runDepth (d + 1) r := rfl

theorem runDepth_append (t1 t2 : List Ev) (d d' : Nat)
    (h : runDepth d t1 = Option.some d') :
    runDepth d (t1 ++ t2) = runDepth d' t2 := by
  induction t1 generalizing d with
  | nil =>
      simp only [runDepth] at h
      cases h
      rfl
  | cons e t ih =>
      cases e with
      | push => exact ih (d + 1) h
      | pop =>
          cases d with
          | zero => simp [runDepth] at h
          | succ d => exact ih d h

theorem add_var_length (st : Scope) (n t : String) :
    (add_var st n t).length = st.length := by
  cases st <;> simp [add_var]

theorem foldl_add_var_length (ps : List (String × CType)) (sc : Scope) :
    (ps.foldl (fun sc p => add_var sc p.1 (type_to_str p.2)) sc).length
      = sc.length := by
  induction ps generalizing sc with
  | nil => rfl
  | cons p t ih => rw [List.foldl_cons, ih, add_var_length]

theorem return_step_scope (I : List String) (s : VState) (e : COpt) :
    (return_step I s e).scope = s.scope := by
  unfold return_step
  split
  · split <;> rfl
  · rfl

mutual

theorem visit_scope_len (I : List String) (e : CNode) (s : VState) :
    ((visit I e s).1.scope).length = (s.scope).length := by
  cases e with
  | ID n => rfl
  | Const v => rfl
  | UnaryOp op e' => exact visit_scope_len I e' s
  | Other cs => exact visit_list_scope_len I cs s
  | Decl name ty init =>
      have h := visit_opt_scope_len I init
        (VState.mk (add_var s.scope name (type_to_str ty)) s.stubs)
      simp only [visit]
      rw [h]
      exact add_var_length s.scope name (type_to_str ty)
  | FuncDef retTy params body =>
      have h := visit_list_scope_len I body
        (VState.mk
          (params.foldl (fun sc p => add_var sc p.1 (type_to_str p.2))
            (push_func s.scope (type_to_str retTy)))
          s.stubs)
      simp only [visit, pop]
      rw [List.length_tail, h, foldl_add_var_length]
      simp [push_func]
  | Compound items =>
      have h := visit_list_scope_len I items
        (VState.mk (push_block s.scope) s.stubs)
      simp only [visit, pop]
      rw [List.length_tail, h]
      simp [push_block]
  | FuncCall callee args =>
      cases callee with
      | ID fname =>
          by_cases hf : fname ∈ I
          · simp only [visit, if_pos hf]
            exact visit_list_scope_len I args _
          · simp only [visit, if_neg hf]
            exact visit_list_scope_len I args s
      | Const v =>
          show ((visit_list I args (visit I (.Const v) s).1).1.scope).length = _
          rw [visit_list_scope_len, visit_scope_len]
      | UnaryOp op e' =>
          show ((visit_list I args (visit I (.UnaryOp op e') s).1).1.scope).length = _
          rw [visit_list_scope_len, visit_scope_len]
      | FuncCall c2 a2 =>
          show ((visit_list I args (visit I (.FuncCall c2 a2) s).1).1.scope).length = _
          rw [visit_list_scope_len, visit_scope_len]
      | Return e' =>
          show ((visit_list I args (visit I (.Return e') s).1).1.scope).length = _
          rw [visit_list_scope_len, visit_scope_len]
      | Decl n ty init =>
          show ((visit_list I args (visit I (.Decl n ty init) s).1).1.scope).length = _
          rw [visit_list_scope_len, visit_scope_len]
      | FuncDef rT ps body =>
          show ((visit_list I args (visit I (.FuncDef rT ps body) s).1).1.scope).length = _
          rw [visit_list_scope_len, visit_scope_len]
      | Compound items =>
          show ((visit_list I args (visit I (.Compound items) s).1).1.scope).length = _
          rw [visit_list_scope_len, visit_scope_len]
      | Other cs =>
          show ((visit_list I args (visit I (.Other cs) s).1).1.scope).length = _
          rw [visit_list_scope_len, visit_scope_len]
  | Return e =>
      have h := visit_opt_scope_len I e (return_step I s e)
      simp only [visit]
      rw [h, return_step_scope]

theorem visit_list_scope_len (I : List String) (l : CList) (s : VState) :
    ((visit_list I l s).1.scope).length = (s.scope).length := by
  cases l with
  | nil => rfl
  | cons x rest =>
      simp only [visit_list]
      rw [visit_list_scope_len, visit_scope_len]

theorem visit_opt_scope_len (I : List String) (o : COpt) (s : VState) :
    ((visit_opt I o s).1.scope).length = (s.scope).length := by
  cases o with
  | none => rfl
  | some e => exact visit_scope_len I e s

end

mutual

theorem visit_trace (I : List String) (e : CNode) (s : VState) (d : Nat) :
    runDepth d (visit I e s).2 = Option.some d := by
  cases e with
  | ID n => rfl
  | Const v => rfl
  | UnaryOp op e' => exact visit_trace I e' s d
  | Other cs => exact visit_list_trace I cs s d
  | Decl name ty init => exact visit_opt_trace I init _ d
  | FuncDef retTy params body =>
      have h : runDepth d (Ev.push ::
          (visit_list I body (VState.mk
            (params.foldl (fun sc p => add_var sc p.1 (type_to_str p.2))
              (push_func s.scope (type_to_str retTy))) s.stubs)).2)
            = Option.some (d + 1) :=
        visit_list_trace I body _ (d + 1)
      simp only [visit]
      rw [runDepth_append _ _ _ _ h]
      rfl
  | Compound items =>
      have h : runDepth d (Ev.push ::
          (visit_list I items (VState.mk (push_block s.scope) s.stubs)).2)
            = Option.some (d + 1) :=
        visit_list_trace I items _ (d + 1)
      simp only [visit]
      rw [runDepth_append _ _ _ _ h]
      rfl
  | FuncCall callee args =>
      cases callee with
      | ID fname =>
          by_cases hf : fname ∈ I
          · simp only [visit, if_pos hf]
            exact visit_list_trace I args _ d
          · simp only [visit, if_neg hf]
            exact visit_list_trace I args s d
      | Const v =>
          show runDepth d ((visit I (.Const v) s).2 ++
            (visit_list I args (visit I (.Const v) s).1).2) = _
          rw [runDepth_append _ _ _ _ (visit_trace I (.Const v) s d)]
          exact visit_list_trace I args _ d
      | UnaryOp op e' =>
          show runDepth d ((visit I (.UnaryOp op e') s).2 ++
            (visit_list I args (visit I (.UnaryOp op e') s).1).2) = _
          rw [runDepth_append _ _ _ _ (visit_trace I (.UnaryOp op e') s d)]
          exact visit_list_trace I args _ d
      | FuncCall c2 a2 =>
          show runDepth d ((visit I (.FuncCall c2 a2) s).2 ++
            (visit_list I args (visit I (.FuncCall c2 a2) s).1).2) = _
          rw [runDepth_append _ _ _ _ (visit_trace I (.FuncCall c2 a2) s d)]
          exact visit_list_trace I args _ d
      | Return e' =>
          show runDepth d ((visit I (.Return e') s).2 ++
            (visit_list I args (visit I (.Return e') s).1).2) = _
          rw [runDepth_append _ _ _ _ (visit_trace I (.Return e') s d)]
          exact visit_list_trace I args _ d
      | Decl n ty init =>
          show runDepth d ((visit I (.Decl n ty init) s).2 ++
            (visit_list I args (visit I (.Decl n ty init) s).1).2) = _
          rw [runDepth_append _ _ _ _ (visit_trace I (.Decl n ty init) s d)]
          exact visit_list_trace I args _ d
      | FuncDef rT ps body =>
          show runDepth d ((visit I (.FuncDef rT ps body) s).2 ++
            (visit_list I args (visit I (.FuncDef rT ps body) s).1).2) = _
          rw [runDepth_append _ _ _ _ (visit_trace I (.FuncDef rT ps body) s d)]
          exact visit_list_trace I args _ d
      | Compound items =>
          show runDepth d ((visit I (.Compound items) s).2 ++
            (visit_list I args (visit I (.Compound items) s).1).2) = _
          rw [runDepth_append _ _ _ _ (visit_trace I (.Compound items) s d)]
          exact visit_list_trace I args _ d
      | Other cs =>
          show runDepth d ((visit I (.Other cs) s).2 ++
            (visit_list I args (visit I (.Other cs) s).1).2) = _
          rw [runDepth_append _ _ _ _ (visit_trace I (.Other cs) s d)]
          exact visit_list_trace I args _ d
  | Return e => exact visit_opt_trace I e _ d

theorem visit_list_trace (I : List String) (l : CList) (s : VState) (d : Nat) :
    runDepth d (visit_list I l s).2 = Option.some d := by
  cases l with
  | nil => rfl
  | cons x rest =>
      simp only [visit_list]
      rw [runDepth_append _ _ _ _ (visit_trace I x s d)]
      exact visit_list_trace I rest _ d

theorem visit_opt_trace (I : List String) (o : COpt) (s : VState) (d : Nat) :
    runDepth d (visit_opt I o s).2 = Option.some d := by
  cases o with
  | none => rfl
  | some e => exact visit_trace I e s d

end

theorem count_star_amp : ((" *" : String).data).count '*' = 1 := by decide

theorem pointer_depth_amp (x : String) :
    pointer_depth (x ++ " *") = pointer_depth x + 1 := by
  show ((x ++ " *").data).count '*' = (x.data).count '*' + 1
  rw [data_append, List.count_append, count_star_amp]

/-! ### Association-list lemmas -/

theorem lookupA_updA_self {α : Type} (m : List (String × α)) (k : String)
    (v : α) : lookupA (updA m k v) k = Option.some v := by
  induction m with
  | nil => simp [updA, lookupA]
  | cons p rest ih =>
      obtain ⟨k', v'⟩ := p
      by_cases h : k' = k
      · simp [updA, h, lookupA]
      · simp [updA, h, lookupA, ih]

theorem lookupA_updA_of_ne {α : Type} (m : List (String × α)) (k q : String)
    (v : α) (h : q ≠ k) : lookupA (updA m k v) q = lookupA m q := by
  induction m with
  | nil =>
      simp only [updA, lookupA]
      rw [if_neg (fun hh => h hh.symm)]
  | cons p rest ih =>
      obtain ⟨k', v'⟩ := p
      by_cases hk : k' = k
      · subst hk
        simp only [updA, if_pos rfl, lookupA]
        rw [if_neg (fun hh => h hh.symm), if_neg (fun hh => h hh.symm)]
      · simp only [updA, if_neg hk, lookupA]
        by_cases hq : k' = q
        · simp [hq]
        · simp [hq, ih]

theorem lookupA_mem {α : Type} (m : List (String × α)) (k : String) (v : α)
    (h : lookupA m k = Option.some v) : (k, v) ∈ m := by
  induction m with
  | nil => simp [lookupA] at h
  | cons p rest ih =>
      obtain ⟨k', v'⟩ := p
      by_cases hk : k' = k
      · subst hk
        have hv : v' = v := by simpa [lookupA] using h
        subst hv
        exact List.mem_cons_self _ _
      · simp only [lookupA, if_neg hk] at h
        exact List.mem_cons_of_mem _ (ih h)

/-! ### Exact preservation of existing registry values by the inferencer -/

theorem infer_pres (e : CNode) : ∀ (sc : Scope) (st : Stubs) (k : String)
    (r : StubInfo), lookupA st k = Option.some r →
    lookupA (infer_expr_type e sc st).2 k = Option.some r := by
  cases e with
  | UnaryOp op e' =>
      intro sc st k r h
      by_cases hop : op = "&"
      · simpa [infer_expr_type, hop] using infer_pres e' sc st k r h
      · simpa [infer_expr_type, hop] using h
  | FuncCall callee args =>
      intro sc st k r h
      cases callee with
      | ID fname =>
          cases hl : lookupA st fname with
          | some info => simpa [infer_expr_type, hl] using h
          | none =>
              have hne : k ≠ fname := by
                rintro rfl
                rw [h] at hl
                cases hl
              simp only [infer_expr_type, hl]
              rw [lookupA_updA_of_ne _ _ _ _ hne]
              exact h
      | Const v => simpa [infer_expr_type] using h
      | UnaryOp op e' => simpa [infer_expr_type] using h
      | FuncCall c2 a2 => simpa [infer_expr_type] using h
      | Return e' => simpa [infer_expr_type] using h
      | Decl n ty init => simpa [infer_expr_type] using h
      | FuncDef rT ps body => simpa [infer_expr_type] using h
      | Compound items => simpa [infer_expr_type] using h
      | Other cs => simpa [infer_expr_type] using h
  | ID n => intro sc st k r h; simpa [infer_expr_type] using h
  | Const v => intro sc st k r h; simpa [infer_expr_type] using h
  | Return e' => intro sc st k r h; simpa [infer_expr_type] using h
  | Decl n ty init => intro sc st k r h; simpa [infer_expr_type] using h
  | FuncDef rT ps body => intro sc st k r h; simpa [infer_expr_type] using h
  | Compound items => intro sc st k r h; simpa [infer_expr_type] using h
  | Other cs => intro sc st k r h; simpa [infer_expr_type] using h

theorem infer_arg_list_pres (l : CList) : ∀ (sc : Scope) (st : Stubs)
    (k : String) (r : StubInfo), lookupA st k = Option.some r →
    lookupA (infer_arg_list l sc st).2 k = Option.some r := by
  cases l with
  | nil => intro sc st k r h; simpa [infer_arg_list] using h
  | cons a rest =>
      intro sc st k r h
      show lookupA (infer_arg_list rest sc (infer_expr_type a sc st).2).2 k = _
      exact infer_arg_list_pres rest sc _ k r (infer_pres a sc st k r h)

theorem collect_pres (args : CList) (sc : Scope) (st : Stubs) (k : String)
    (r : StubInfo) (h : lookupA st k = Option.some r) :
    lookupA (collect_param_types args sc st).2 k = Option.some r := by
  cases args with
  | nil => simpa [collect_param_types] using h
  | cons a rest => exact infer_arg_list_pres (.cons a rest) sc st k r h

theorem call_upsert_lookup_ne (fname : String) (pt : List String)
    (st : Stubs) (k : String) (hne : k ≠ fname) :
    lookupA (call_upsert fname pt st) k = lookupA st k := by
  unfold call_upsert
  split <;> exact lookupA_updA_of_ne _ _ _ _ hne

theorem call_upsert_lookup_self (fname : String) (pt : List String)
    (st : Stubs) (info : StubInfo) (h : lookupA st fname = Option.some info) :
    lookupA (call_upsert fname pt st) fname
      = Option.some { info with param_types := pt } := by
  simp only [call_upsert, h]
  exact lookupA_updA_self _ _ _

theorem return_step_pres (I : List String) (s : VState) (e : COpt)
    (k : String) (r : StubInfo) (h : lookupA s.stubs k = Option.some r) :
    lookupA (return_step I s e).stubs k = Option.some r := by
  unfold return_step
  split
  · split
    · rename_i callee _ hcond
      have hne : k ≠ callee := by
        rintro rfl
        rw [h] at hcond
        cases hcond.2
      show lookupA (updA s.stubs callee _) k = _
      rw [lookupA_updA_of_ne _ _ _ _ hne]
      exact h
    · exact h
  · exact h

/-! ### Preservation of existing records by the visitor: only the
parameter-type list of an existing record can ever change; its stub flag,
return type and callback list are permanent. -/

mutual

theorem visit_pres (I : List String) (e : CNode) :
    ∀ (s : VState) (k : String) (r : StubInfo),
    lookupA s.stubs k = Option.some r →
    ∃ ts, lookupA (visit I e s).1.stubs k
      = Option.some (StubInfo.mk r.is_stub r.ret_type ts r.cbs) := by
  cases e with
  | ID n => intro s k r h; exact ⟨r.param_types, h⟩
  | Const v => intro s k r h; exact ⟨r.param_types, h⟩
  | UnaryOp op e' => intro s k r h; exact visit_pres I e' s k r h
  | Other cs => intro s k r h; exact visit_list_pres I cs s k r h
  | Decl name ty init =>
      intro s k r h
      exact visit_opt_pres I init _ k r h
  | FuncDef retTy params body =>
      intro s k r h
      exact visit_list_pres I body _ k r h
  | Compound items =>
      intro s k r h
      exact visit_list_pres I items _ k r h
  | FuncCall callee args =>
      intro s k r h
      cases callee with
      | ID fname =>
          by_cases hf : fname ∈ I
          · simp only [visit, if_pos hf]
            by_cases hk : k = fname
            · subst hk
              have h1 : lookupA (collect_param_types args s.scope s.stubs).2 k
                  = Option.some r := collect_pres args s.scope s.stubs k r h
              have h2 := call_upsert_lookup_self k
                (collect_param_types args s.scope s.stubs).1
                (collect_param_types args s.scope s.stubs).2 r h1
              obtain ⟨ts, h3⟩ := visit_list_pres I args
                (VState.mk s.scope (call_upsert k
                  (collect_param_types args s.scope s.stubs).1
                  (collect_param_types args s.scope s.stubs).2)) k
                { r with param_types := (collect_param_types args s.scope s.stubs).1 } h2
              exact ⟨ts, h3⟩
            · have h1 : lookupA (collect_param_types args s.scope s.stubs).2 k
                  = Option.some r := collect_pres args s.scope s.stubs k r h
              have h2 : lookupA (call_upsert fname
                  (collect_param_types args s.scope s.stubs).1
                  (collect_param_types args s.scope s.stubs).2) k
                  = Option.some r := by
                rw [call_upsert_lookup_ne _ _ _ _ hk]
                exact h1
              exact visit_list_pres I args _ k r h2
          · simp only [visit, if_neg hf]
            exact visit_list_pres I args s k r h
      | Const v =>
          obtain ⟨ts, h1⟩ := visit_pres I (.Const v) s k r h
          obtain ⟨ts2, h2⟩ := visit_list_pres I args _ k
            (StubInfo.mk r.is_stub r.ret_type ts r.cbs) h1
          exact ⟨ts2, h2⟩
      | UnaryOp op e' =>
          obtain ⟨ts, h1⟩ := visit_pres I (.UnaryOp op e') s k r h
          obtain ⟨ts2, h2⟩ := visit_list_pres I args _ k
            (StubInfo.mk r.is_stub r.ret_type ts r.cbs) h1
          exact ⟨ts2, h2⟩
      | FuncCall c2 a2 =>
          obtain ⟨ts, h1⟩ := visit_pres I (.FuncCall c2 a2) s k r h
          obtain ⟨ts2, h2⟩ := visit_list_pres I args _ k
            (StubInfo.mk r.is_stub r.ret_type ts r.cbs) h1
          exact ⟨ts2, h2⟩
      | Return e' =>
          obtain ⟨ts, h1⟩ := visit_pres I (.Return e') s k r h
          obtain ⟨ts2, h2⟩ := visit_list_pres I args _ k
            (StubInfo.mk r.is_stub r.ret_type ts r.cbs) h1
          exact ⟨ts2, h2⟩
      | Decl n ty init =>
          obtain ⟨ts, h1⟩ := visit_pres I (.Decl n ty init) s k r h
          obtain ⟨ts2, h2⟩ := visit_list_pres I args _ k
            (StubInfo.mk r.is_stub r.ret_type ts r.cbs) h1
          exact ⟨ts2, h2⟩
      | FuncDef rT ps body =>
          obtain ⟨ts, h1⟩ := visit_pres I (.FuncDef rT ps body) s k r h
          obtain ⟨ts2, h2⟩ := visit_list_pres I args _ k
            (StubInfo.mk r.is_stub r.ret_type ts r.cbs) h1
          exact ⟨ts2, h2⟩
      | Compound items =>
          obtain ⟨ts, h1⟩ := visit_pres I (.Compound items) s k r h
          obtain ⟨ts2, h2⟩ := visit_list_pres I args _ k
            (StubInfo.mk r.is_stub r.ret_type ts r.cbs) h1
          exact ⟨ts2, h2⟩
      | Other cs =>
          obtain ⟨ts, h1⟩ := visit_pres I (.Other cs) s k r h
          obtain ⟨ts2, h2⟩ := visit_list_pres I args _ k
            (StubInfo.mk r.is_stub r.ret_type ts r.cbs) h1
          exact ⟨ts2, h2⟩
  | Return e =>
      intro s k r h
      exact visit_opt_pres I e _ k r (return_step_pres I s e k r h)

theorem visit_list_pres (I : List String) (l : CList) :
    ∀ (s : VState) (k : String) (r : StubInfo),
    lookupA s.stubs k = Option.some r →
    ∃ ts, lookupA (visit_list I l s).1.stubs k
      = Option.some (StubInfo.mk r.is_stub r.ret_type ts r.cbs) := by
  cases l with
  | nil => intro s k r h; exact ⟨r.param_types, h⟩
  | cons x rest =>
      intro s k r h
      obtain ⟨ts, h1⟩ := visit_pres I x s k r h
      obtain ⟨ts2, h2⟩ := visit_list_pres I rest _ k
        (StubInfo.mk r.is_stub r.ret_type ts r.cbs) h1
      exact ⟨ts2, h2⟩

theorem visit_opt_pres (I : List String) (o : COpt) :
    ∀ (s : VState) (k : String) (r : StubInfo),
    lookupA s.stubs k = Option.some r →
    ∃ ts, lookupA (visit_opt I o s).1.stubs k
      = Option.some (StubInfo.mk r.is_stub r.ret_type ts r.cbs) := by
  cases o with
  | none => intro s k r h; exact ⟨r.param_types, h⟩
  | some e => intro s k r h; exact visit_pres I e s k r h

end

/-! ### The registry invariant: all records are stub-flagged, no record
ever carries a pending callback during a walk -/

theorem reg_ok_updA (k : String) (v : StubInfo) (h1 : v.is_stub = true)
    (h2 : v.cbs = []) : ∀ (m : Stubs), reg_ok m → reg_ok (updA m k v) := by
  intro m
  induction m with
  | nil => intro _; exact ⟨⟨h1, h2⟩, trivial⟩
  | cons p rest ih =>
      intro hm
      obtain ⟨k', v'⟩ := p
      obtain ⟨hp, hrest⟩ := hm
      by_cases hk : k' = k
      · simp only [updA, if_pos hk]
        exact ⟨⟨h1, h2⟩, hrest⟩
      · simp only [updA, if_neg hk]
        exact ⟨hp, ih hrest⟩

theorem reg_ok_lookup (k : String) (r : StubInfo) :
    ∀ (m : Stubs), reg_ok m → lookupA m k = Option.some r →
    r.is_stub = true ∧ r.cbs = [] := by
  intro m
  induction m with
  | nil => intro _ h; simp [lookupA] at h
  | cons p rest ih =>
      intro hm h
      obtain ⟨k', v'⟩ := p
      obtain ⟨hp, hrest⟩ := hm
      by_cases hk : k' = k
      · have hv : v' = r := by simpa [lookupA, hk] using h
        subst hv
        exact hp
      · exact ih hrest (by simpa [lookupA, hk] using h)

theorem reg_ok_mem (p : String × StubInfo) : ∀ (m : Stubs), reg_ok m →
    p ∈ m → p.2.is_stub = true ∧ p.2.cbs = [] := by
  intro m
  induction m with
  | nil => intro _ hp; cases hp
  | cons q rest ih =>
      intro hm hp
      obtain ⟨hq, hrest⟩ := hm
      rcases List.mem_cons.mp hp with h | h
      · subst h; exact hq
      · exact ih hrest h

theorem infer_reg_ok (e : CNode) : ∀ (sc : Scope) (st : Stubs),
    reg_ok st → reg_ok (infer_expr_type e sc st).2 := by
  cases e with
  | UnaryOp op e' =>
      intro sc st h
      by_cases hop : op = "&"
      · simpa [infer_expr_type, hop] using infer_reg_ok e' sc st h
      · simpa [infer_expr_type, hop] using h
  | FuncCall callee args =>
      intro sc st h
      cases callee with
      | ID fname =>
          cases hl : lookupA st fname with
          | some info => simpa [infer_expr_type, hl] using h
          | none =>
              simp only [infer_expr_type, hl]
              exact reg_ok_updA fname _ rfl rfl st h
      | Const v => simpa [infer_expr_type] using h
      | UnaryOp op e' => simpa [infer_expr_type] using h
      | FuncCall c2 a2 => simpa [infer_expr_type] using h
      | Return e' => simpa [infer_expr_type] using h
      | Decl n ty init => simpa [infer_expr_type] using h
      | FuncDef rT ps body => simpa [infer_expr_type] using h
      | Compound items => simpa [infer_expr_type] using h
      | Other cs => simpa [infer_expr_type] using h
  | ID n => intro sc st h; simpa [infer_expr_type] using h
  | Const v => intro sc st h; simpa [infer_expr_type] using h
  | Return e' => intro sc st h; simpa [infer_expr_type] using h
  | Decl n ty init => intro sc st h; simpa [infer_expr_type] using h
  | FuncDef rT ps body => intro sc st h; simpa [infer_expr_type] using h
  | Compound items => intro sc st h; simpa [infer_expr_type] using h
  | Other cs => intro sc st h; simpa [infer_expr_type] using h

theorem infer_arg_list_reg_ok (l : CList) : ∀ (sc : Scope) (st : Stubs),
    reg_ok st → reg_ok (infer_arg_list l sc st).2 := by
  cases l with
  | nil => intro sc st h; simpa [infer_arg_list] using h
  | cons a rest =>
      intro sc st h
      show reg_ok (infer_arg_list rest sc (infer_expr_type a sc st).2).2
      exact infer_arg_list_reg_ok rest sc _ (infer_reg_ok a sc st h)

theorem collect_reg_ok (args : CList) (sc : Scope) (st : Stubs)
    (h : reg_ok st) : reg_ok (collect_param_types args sc st).2 := by
  cases args with
  | nil => simpa [collect_param_types] using h
  | cons a rest => exact infer_arg_list_reg_ok (.cons a rest) sc st h

theorem call_upsert_reg_ok (fname : String) (pt : List String) (st : Stubs)
    (h : reg_ok st) : reg_ok (call_upsert fname pt st) := by
  cases hl : lookupA st fname with
  | none =>
      simp only [call_upsert, hl]
      exact reg_ok_updA fname _ rfl rfl st h
  | some info =>
      simp only [call_upsert, hl]
      obtain ⟨h1, h2⟩ := reg_ok_lookup fname info st h hl
      exact reg_ok_updA fname { info with param_types := pt } h1 h2 st h

theorem return_step_reg_ok (I : List String) (s : VState) (e : COpt)
    (h : reg_ok s.stubs) : reg_ok (return_step I s e).stubs := by
  unfold return_step
  split
  · split
    · exact reg_ok_updA _ _ rfl rfl _ h
    · exact h
  · exact h

mutual

theorem visit_reg_ok (I : List String) (e : CNode) :
    ∀ (s : VState), reg_ok s.stubs → reg_ok (visit I e s).1.stubs := by
  cases e with
  | ID n => intro s h; exact h
  | Const v => intro s h; exact h
  | UnaryOp op e' => intro s h; exact visit_reg_ok I e' s h
  | Other cs => intro s h; exact visit_list_reg_ok I cs s h
  | Decl name ty init => intro s h; exact visit_opt_reg_ok I init _ h
  | FuncDef retTy params body => intro s h; exact visit_list_reg_ok I body _ h
  | Compound items => intro s h; exact visit_list_reg_ok I items _ h
  | FuncCall callee args =>
      intro s h
      cases callee with
      | ID fname =>
          by_cases hf : fname ∈ I
          · simp only [visit, if_pos hf]
            exact visit_list_reg_ok I args _
              (call_upsert_reg_ok fname _ _ (collect_reg_ok args s.scope s.stubs h))
          · simp only [visit, if_neg hf]
            exact visit_list_reg_ok I args s h
      | Const v => exact visit_list_reg_ok I args _ (visit_reg_ok I (.Const v) s h)
      | UnaryOp op e' =>
          exact visit_list_reg_ok I args _ (visit_reg_ok I (.UnaryOp op e') s h)
      | FuncCall c2 a2 =>
          exact visit_list_reg_ok I args _ (visit_reg_ok I (.FuncCall c2 a2) s h)
      | Return e' =>
          exact visit_list_reg_ok I args _ (visit_reg_ok I (.Return e') s h)
      | Decl n ty init =>
          exact visit_list_reg_ok I args _ (visit_reg_ok I (.Decl n ty init) s h)
      | FuncDef rT ps body =>
          exact visit_list_reg_ok I args _ (visit_reg_ok I (.FuncDef rT ps body) s h)
      | Compound items =>
          exact visit_list_reg_ok I args _ (visit_reg_ok I (.Compound items) s h)
      | Other cs =>
          exact visit_list_reg_ok I args _ (visit_reg_ok I (.Other cs) s h)
  | Return e =>
      intro s h
      exact visit_opt_reg_ok I e _ (return_step_reg_ok I s e h)

theorem visit_list_reg_ok (I : List String) (l : CList) :
    ∀ (s : VState), reg_ok s.stubs → reg_ok (visit_list I l s).1.stubs := by
  cases l with
  | nil => intro s h; exact h
  | cons x rest =>
      intro s h
      exact visit_list_reg_ok I rest _ (visit_reg_ok I x s h)

theorem visit_opt_reg_ok (I : List String) (o : COpt) :
    ∀ (s : VState), reg_ok s.stubs → reg_ok (visit_opt I o s).1.stubs := by
  cases o with
  | none => intro s h; exact h
  | some e => intro s h; exact visit_reg_ok I e s h

end

theorem walk_reg_ok (I : List String) (tu : CList) :
    reg_ok (walk_tu I tu).1.stubs :=
  visit_list_reg_ok I tu init_state trivial

theorem count_pair_map (cbs : List Nat) (real : String) (cb : Nat) :
    ((cbs.map (fun c => (c, real))).count (cb, real)) = cbs.count cb := by
  induction cbs with
  | nil => rfl
  | cons a t ih =>
      simp only [List.map_cons, List.count_cons, ih]
      by_cases hac : a = cb
      · subst hac; simp
      · simp [beq_iff_eq, Prod.mk.injEq, hac]

/-! ### The visitor on plain identifier argument lists -/

theorem visit_list_id (I : List String) (names : List String) :
    ∀ (s : VState), visit_list I (idCList names) s = (s, []) := by
  induction names with
  | nil => intro s; rfl
  | cons n rest ih =>
      intro s
      show ((visit_list I (idCList rest) s).1,
        [] ++ (visit_list I (idCList rest) s).2) = (s, [])
      rw [ih s]
      rfl

theorem infer_id_args (names : List String) : ∀ (sc : Scope) (st : Stubs),
    infer_arg_list (idCList names) sc st
      = (names.map (fun n => pyOr (find_var sc n) "void*"), st) := by
  induction names with
  | nil => intro sc st; rfl
  | cons n rest ih =>
      intro sc st
      show ((pyOr (find_var sc n) "void*")
          :: (infer_arg_list (idCList rest) sc st).1,
        (infer_arg_list (idCList rest) sc st).2)
        = ((n :: rest).map (fun m => pyOr (find_var sc m) "void*"), st)
      rw [ih sc st]
      rfl

theorem collect_id_args (names : List String) (sc : Scope) (st : Stubs) :
    collect_param_types (idCList names) sc st = (id_arg_types sc names, st) := by
  cases names with
  | nil => rfl
  | cons n rest =>
      show infer_arg_list (idCList (n :: rest)) sc st = _
      rw [infer_id_args (n :: rest) sc st]
      rfl

/-- The return type an interesting call's record shows after a call-site
visit equals the return type it had when the call was reached: the upsert
and the recursion into the arguments may only touch parameter types. -/
theorem call_visit_ret (I : List String) (f : String) (args : CList)
    (s1 : VState) (r1 : StubInfo)
    (h : lookupA s1.stubs f = Option.some r1) :
    (lookupA (visit I (.FuncCall (.ID f) args) s1).1.stubs f).map
      StubInfo.ret_type = Option.some r1.ret_type := by
  obtain ⟨ts, h3⟩ := visit_pres I (.FuncCall (.ID f) args) s1 f r1 h
  rw [h3]
  rfl

/-! ### Chunk-containment lemmas for the emitted text -/

theorem startsChunk_append (p r : List Char) :
    startsChunk p (p ++ r) = true := by
  induction p with
  | nil => rfl
  | cons a t ih => simp [startsChunk, ih]

theorem startsChunk_refl (p : List Char) : startsChunk p p = true := by
  have h := startsChunk_append p []
  simpa using h

theorem hasChunk_of_starts (p l : List Char) (h : startsChunk p l = true) :
    hasChunk p l = true := by
  cases l with
  | nil => simpa [hasChunk] using h
  | cons x xs => simp [hasChunk, h]

theorem startsChunk_mono_aux (p : List Char) : ∀ (l b : List Char),
    startsChunk p l = true → startsChunk p (l ++ b) = true := by
  induction p with
  | nil => intro l b _; rfl
  | cons a t ih =>
      intro l b h
      cases l with
      | nil => simp [startsChunk] at h
      | cons x xs =>
          simp only [List.cons_append, startsChunk, Bool.and_eq_true] at h ⊢
          exact ⟨h.1, ih xs b h.2⟩

theorem hasChunk_append_right (p : List Char) :
    ∀ (l b : List Char), hasChunk p l = true → hasChunk p (l ++ b) = true := by
  intro l
  induction l with
  | nil =>
      intro b h
      cases p with
      | nil => exact hasChunk_of_starts _ _ rfl
      | cons a t => simp [hasChunk, startsChunk] at h
  | cons x xs ih =>
      intro b h
      simp only [hasChunk] at h
      rw [Bool.or_eq_true] at h
      rcases h with hs | hh
      · have hs2 := startsChunk_mono_aux p (x :: xs) b hs
        show hasChunk p (x :: (xs ++ b)) = true
        simp only [List.cons_append] at hs2
        simp [hasChunk, hs2]
      · show hasChunk p (x :: (xs ++ b)) = true
        simp [hasChunk, ih b hh]

theorem hasChunk_prepend (p : List Char) : ∀ (a l : List Char),
    hasChunk p l = true → hasChunk p (a ++ l) = true := by
  intro a
  induction a with
  | nil => intro l h; exact h
  | cons x xs ih =>
      intro l h
      show hasChunk p (x :: (xs ++ l)) = true
      simp [hasChunk, ih l h]

theorem hasChunk_ne_nil (p l : List Char) (hp : p ≠ [])
    (h : hasChunk p l = true) : l ≠ [] := by
  intro hl
  subst hl
  cases p with
  | nil => exact hp rfl
  | cons a t => simp [hasChunk, startsChunk] at h

theorem hasChunk_pyJoin (sep : String) (x : String) : ∀ (l : List String),
    x ∈ l → hasChunk x.data (pyJoin sep l).data = true := by
  intro l
  induction l with
  | nil => intro hx; cases hx
  | cons y rest ih =>
      intro hx
      cases rest with
      | nil =>
          have hxy : x = y := by simpa using hx
          subst hxy
          exact hasChunk_of_starts _ _ (startsChunk_refl x.data)
      | cons z zs =>
          rcases List.mem_cons.mp hx with h | h
          · subst h
            show hasChunk x.data ((x ++ sep ++ pyJoin sep (z :: zs))).data = true
            rw [data_append, data_append, List.append_assoc]
            exact hasChunk_of_starts _ _ (startsChunk_append _ _)
          · show hasChunk x.data ((y ++ sep ++ pyJoin sep (z :: zs))).data = true
            rw [data_append, data_append, List.append_assoc]
            exact hasChunk_prepend _ _ _ (hasChunk_prepend _ _ _ (ih h))

theorem hasChunk_str_append_right (p : List Char) (a b : String)
    (h : hasChunk p b.data = true) : hasChunk p (a ++ b).data = true := by
  rw [data_append]
  exact hasChunk_prepend _ _ _ h

theorem hasChunk_str_append_left (p : List Char) (a b : String)
    (h : hasChunk p a.data = true) : hasChunk p (a ++ b).data = true := by
  rw [data_append]
  exact hasChunk_append_right _ _ _ h

theorem arg_chunk_in_dummy (ts : List String) (i : Nat) (hi : i < ts.length) :
    hasChunk ("arg" ++ toString i).data
      (pyOrS (pyJoin ", "
        ((List.range ts.length).map (fun j => "arg" ++ toString j))) "0").data
      = true := by
  have hmem : ("arg" ++ toString i)
      ∈ (List.range ts.length).map (fun j => "arg" ++ toString j) :=
    List.mem_map_of_mem _ (List.mem_range.mpr hi)
  have hj := hasChunk_pyJoin ", " _ _ hmem
  have hp : ("arg" ++ toString i).data ≠ [] := by
    rw [data_append]
    simp
  have hne : pyJoin ", "
      ((List.range ts.length).map (fun j => "arg" ++ toString j)) ≠ "" := by
    intro h0
    apply hasChunk_ne_nil _ _ hp hj
    rw [h0]
  rw [pyOrS, if_neg hne]
  exact hj

/-! ## Claim theorems -/

/-- Claim C7: binding `x` in a newly pushed inner frame makes lookups of `x`
return the inner binding while the frame is on the stack, and popping the
inner frame restores the stack — hence the outer binding — exactly as it
was before the push and bind. -/
theorem claim_C7 (st : Scope) (x tin : String) :
    find_var (add_var (push_block st) x tin) x = Option.some tin ∧
    pop (add_var (push_block st) x tin) = st := by
  constructor
  · simp [push_block, add_var, find_var, updA, lookupA]
  · simp [push_block, add_var, pop]

/-- Claim C8: inferring the type of `&y` yields the descriptor of `y` with
pointer depth increased by one, and applying address-of twice increases the
pointer depth by two; the registry is threaded through unchanged by the
address-of layer itself. -/
theorem claim_C8 (e : CNode) (scope : Scope) (stubs : Stubs) :
    infer_expr_type (.UnaryOp "&" e) scope stubs =
      ((infer_expr_type e scope stubs).1 ++ " *",
        (infer_expr_type e scope stubs).2) ∧
    pointer_depth (infer_expr_type (.UnaryOp "&" e) scope stubs).1 =
      pointer_depth (infer_expr_type e scope stubs).1 + 1 ∧
    pointer_depth (infer_expr_type (.UnaryOp "&" (.UnaryOp "&" e)) scope stubs).1 =
      pointer_depth (infer_expr_type e scope stubs).1 + 2 := by
  have hstep : ∀ (e' : CNode),
      infer_expr_type (.UnaryOp "&" e') scope stubs =
        ((infer_expr_type e' scope stubs).1 ++ " *",
          (infer_expr_type e' scope stubs).2) := by
    intro e'
    simp [infer_expr_type]
  refine ⟨hstep e, ?_, ?_⟩
  · rw [hstep e, pointer_depth_amp]
  · rw [hstep (.UnaryOp "&" e), hstep e]
    show pointer_depth (((infer_expr_type e scope stubs).1 ++ " *") ++ " *") = _
    rw [pointer_depth_amp, pointer_depth_amp]

/-- Claim C3 counterexample: a record that has already been resolved (fired
with `"int"`) receives a second resolution signal `fire "char"`; its return
type changes to `"char"`, so a second signal is not ignored and first-writer
does not win, contrary to the claim. -/
theorem claim_C3_cex :
    ((((StubInfo.mk true "void*" [] [5]).fire "int").1.fire "char").1.ret_type
        = "char") ∧
    ("char" : String) ≠ "int" :=
  ⟨rfl, by decide⟩

/-- Claim C3 (amended): delivering a second resolution signal to an
already-fired record overwrites its return type with the newly delivered
type (last writer wins), but never re-invokes previously fired subscribers:
the first firing cleared the list, so the second firing's invocation log is
empty. -/
theorem claim_C3 (r : StubInfo) (t1 t2 : String) :
    (((r.fire t1).1.fire t2).1.ret_type = t2) ∧
    (((r.fire t1).1.fire t2).2 = []) := by
  simp [StubInfo.fire]

/-- Claim C9: the scope stack is never empty during a walk, every frame
pushed on entering a function definition or compound block is popped
exactly once, and after a whole translation unit the stack is again exactly
the single global frame.  The push/pop trace of the walk, replayed from
relative depth 0, never underflows (so the bottom global frame, at absolute
depth 1, is never popped and the stack is never empty) and ends at depth 0
(every push is matched by exactly one pop); the final stack length is 1. -/
theorem claim_C9 (I : List String) (tu : CList) :
    ((walk_tu I tu).1.scope).length = 1 ∧
    runDepth 0 (walk_tu I tu).2 = Option.some 0 :=
  ⟨visit_list_scope_len I tu init_state, visit_list_trace I tu init_state 0⟩

/-- Claim C10: every record the walk ever inserts carries `is_stub = true`
(nothing ever clears the flag), so the emitter's `is_stub` filter excludes
nothing: the pieces list renders every record of the final registry. -/
theorem claim_C10 (I : List String) (tu : CList) (name : String)
    (info : StubInfo)
    (h : lookupA (walk_tu I tu).1.stubs name = Option.some info) :
    info.is_stub = true ∧
    emit_pieces (walk_tu I tu).1.stubs
      = ((walk_tu I tu).1.stubs).map (fun p => render_stub p.1 p.2) := by
  constructor
  · exact (reg_ok_lookup name info _ (walk_reg_ok I tu) h).1
  · have hfil : ((walk_tu I tu).1.stubs).filter (fun p => p.2.is_stub)
        = (walk_tu I tu).1.stubs :=
      List.filter_eq_self.mpr
        (fun p hp => (reg_ok_mem p _ (walk_reg_ok I tu) hp).1)
    unfold emit_pieces
    rw [hfil]

/-- Claim C10 witness: on the one-call translation unit `f()` with
whitelist `[f]`, the single record is stub-flagged and the emitter renders
the whole registry. -/
theorem claim_C10_witness :
    (StubInfo.mk true "void*" ["void"] []).is_stub = true ∧
    emit_pieces (walk_tu ["f"] oneCallTU).1.stubs
      = ((walk_tu ["f"] oneCallTU).1.stubs).map
          (fun p => render_stub p.1 p.2) :=
  claim_C10 ["f"] oneCallTU "f" (StubInfo.mk true "void*" ["void"] []) rfl

/-- Claim C2: firing a record invokes each callback registered while the
record was unresolved exactly once, passing every one of them the final
resolved return type, and clears the subscriber list at that moment, so a
later firing invokes nothing; moreover no record of any walk-produced
registry ever holds a pending subscriber (the walk itself never registers
callbacks), so no resolution performed during a walk can miss or duplicate
a subscriber. -/
theorem claim_C2 (r : StubInfo) (real t2 : String) (cb : Nat)
    (I : List String) (tu : CList) (name : String) (info : StubInfo)
    (h : lookupA (walk_tu I tu).1.stubs name = Option.some info) :
    (r.fire real).2 = r.cbs.map (fun c => (c, real)) ∧
    ((r.fire real).2.count (cb, real)) = r.cbs.count cb ∧
    ((r.fire real).1.cbs = []) ∧
    (((r.fire real).1.fire t2).2 = []) ∧
    info.cbs = [] := by
  refine ⟨rfl, count_pair_map r.cbs real cb, rfl, ?_, ?_⟩
  · simp [StubInfo.fire]
  · exact (reg_ok_lookup name info _ (walk_reg_ok I tu) h).2

/-- Claim C1 counterexample (backward reference): in
`FOO_TYPE compute() { worker(); return worker(); }` with `worker`
interesting, the call site creates the record before the return statement
is reached; the return statement then leaves the return type at the
`void*` placeholder instead of setting it to the enclosing `FOO_TYPE`, so
the claimed order-independence fails. -/
theorem claim_C1_cex :
    (lookupA (walk_tu ["worker"] backwardTU).1.stubs "worker").map
      StubInfo.ret_type = Option.some "void*" ∧
    ("void*" : String) ≠ "FOO_TYPE" :=
  ⟨rfl, by decide⟩

/-- Claim C1 (amended): visiting `return f(...);` with `f` interesting sets
the record's return type to the enclosing function's declared return type
(opaque pointer when unknown) only when no record for `f` exists yet — the
forward-reference / first-observation case.  When a record was already
created by an earlier call site, the return statement leaves its return
type unchanged: backward references are not resolved. -/
theorem claim_C1 (I : List String) (f : String) (args : CList) (s : VState)
    (hf : f ∈ I) :
    (lookupA (visit I (.Return (.some (.FuncCall (.ID f) args))) s).1.stubs
        f).map StubInfo.ret_type
      = Option.some (match lookupA s.stubs f with
          | Option.none => pyOr (enclosing_ret s.scope) "void*"
          | Option.some r => r.ret_type) := by
  cases hl : lookupA s.stubs f with
  | none =>
      have hstep : (return_step I s (.some (.FuncCall (.ID f) args))).stubs
          = updA s.stubs f
              (StubInfo.mk true (pyOr (enclosing_ret s.scope) "void*") [] []) := by
        simp [return_step, hf, hl]
      have hlook : lookupA
          (return_step I s (.some (.FuncCall (.ID f) args))).stubs f
          = Option.some
              (StubInfo.mk true (pyOr (enclosing_ret s.scope) "void*") [] []) := by
        rw [hstep]
        exact lookupA_updA_self _ _ _
      exact call_visit_ret I f args _ _ hlook
  | some r =>
      have hstep : return_step I s (.some (.FuncCall (.ID f) args)) = s := by
        simp [return_step, hl]
      have hlook : lookupA
          (return_step I s (.some (.FuncCall (.ID f) args))).stubs f
          = Option.some r := by
        rw [hstep]
        exact hl
      exact call_visit_ret I f args _ _ hlook

/-- Claim C1 witness: the forward-reference scenario — inside a function
frame declaring return type `FOO_TYPE`, visiting `return worker();` with no
prior record resolves `worker` to `FOO_TYPE`. -/
theorem claim_C1_witness :
    (lookupA (visit ["worker"]
        (.Return (.some (.FuncCall (.ID "worker") .nil)))
        (VState.mk [ScopeFrame.mk [] true (Option.some "FOO_TYPE"),
          ScopeFrame.mk [] false Option.none] [])).1.stubs "worker").map
      StubInfo.ret_type = Option.some "FOO_TYPE" :=
  claim_C1 ["worker"] "worker" .nil
    (VState.mk [ScopeFrame.mk [] true (Option.some "FOO_TYPE"),
      ScopeFrame.mk [] false Option.none] []) (by decide)

/-- Claim C4 counterexample: walking `f(g())` with whitelist `[f]` leaves a
registry record keyed `g`, although `g` is not a member of the whitelist —
the inferencer registers nested callees without consulting it. -/
theorem claim_C4_cex :
    lookupA (walk_tu ["f"] nestedCallTU).1.stubs "g"
      = Option.some (StubInfo.mk true "void*" [] []) ∧
    ¬ ("g" ∈ (["f"] : List String)) :=
  ⟨rfl, by decide⟩

/-- Claim C4 (amended): the top-level visitor itself never creates a record
for a non-whitelisted callee (a call to a name outside the whitelist with
plain identifier arguments leaves the registry untouched), but the
expression inferencer creates a placeholder record for any direct callee it
meets nested inside an inferred argument, with no whitelist check — so
registry keys are not confined to the whitelist. -/
theorem claim_C4 (I : List String) (g : String) (sc : Scope) (st : Stubs)
    (args : CList) (s : VState) (names : List String)
    (hni : g ∉ I) (habs : lookupA st g = Option.none) :
    (infer_expr_type (.FuncCall (.ID g) args) sc st).2
      = updA st g (StubInfo.mk true "void*" [] []) ∧
    (visit I (.FuncCall (.ID g) (idCList names)) s).1.stubs = s.stubs := by
  constructor
  · simp [infer_expr_type, habs]
  · simp only [visit, if_neg hni]
    rw [visit_list_id I names s]

/-- Claim C4 witness: a concrete non-whitelisted nested callee is
registered by the inferencer while a top-level non-whitelisted call leaves
the registry empty. -/
theorem claim_C4_witness :
    (infer_expr_type (.FuncCall (.ID "g") .nil) [] []).2
      = updA [] "g" (StubInfo.mk true "void*" [] []) ∧
    (visit ["f"] (.FuncCall (.ID "g") (idCList ["x"])) init_state).1.stubs
      = init_state.stubs :=
  claim_C4 ["f"] "g" [] [] .nil init_state ["x"] (by decide) rfl

/-- Claim C5: a call to an interesting name infers its argument types in
order (an empty argument list yielding the single type `void`); with no
prior record a fresh unresolved record with those parameter types and
opaque-pointer return is created, and a later call site overwrites only the
parameter-type list, leaving return type and stub flag unchanged — the
registry ends up with the later call site's inferred argument types. -/
theorem claim_C5 (I : List String) (f : String) (s : VState)
    (names1 names2 : List String) (hf : f ∈ I)
    (h0 : lookupA s.stubs f = Option.none) :
    lookupA (visit I (.FuncCall (.ID f) (idCList names1)) s).1.stubs f
      = Option.some (StubInfo.mk true "void*" (id_arg_types s.scope names1) []) ∧
    lookupA (visit I (.FuncCall (.ID f) (idCList names2))
        (visit I (.FuncCall (.ID f) (idCList names1)) s).1).1.stubs f
      = Option.some (StubInfo.mk true "void*" (id_arg_types s.scope names2) []) := by
  have hflook : lookupA (call_upsert f (id_arg_types s.scope names1) s.stubs) f
      = Option.some (StubInfo.mk true "void*" (id_arg_types s.scope names1) []) := by
    simp only [call_upsert, h0]
    exact lookupA_updA_self _ _ _
  have step1 : (visit I (.FuncCall (.ID f) (idCList names1)) s).1
      = VState.mk s.scope
          (call_upsert f (id_arg_types s.scope names1) s.stubs) := by
    simp only [visit, if_pos hf, collect_id_args, visit_list_id]
  refine ⟨by rw [step1]; exact hflook, ?_⟩
  rw [step1]
  have step2 : (visit I (.FuncCall (.ID f) (idCList names2))
      (VState.mk s.scope
        (call_upsert f (id_arg_types s.scope names1) s.stubs))).1
      = VState.mk s.scope (call_upsert f (id_arg_types s.scope names2)
          (call_upsert f (id_arg_types s.scope names1) s.stubs)) := by
    simp only [visit, if_pos hf, collect_id_args, visit_list_id]
  rw [step2]
  show lookupA (call_upsert f (id_arg_types s.scope names2) _) f = _
  rw [call_upsert_lookup_self f _ _ _ hflook]

/-- Claim C5 witness: first call site `f()` yields parameter list
`["void"]`, a second call site `f(x)` with `x` unbound overwrites it to
`["void*"]` while the return type stays the opaque pointer. -/
theorem claim_C5_witness :
    lookupA (visit ["f"] (.FuncCall (.ID "f") (idCList [])) init_state).1.stubs
        "f" = Option.some (StubInfo.mk true "void*" ["void"] []) ∧
    lookupA (visit ["f"] (.FuncCall (.ID "f") (idCList ["x"]))
        (visit ["f"] (.FuncCall (.ID "f") (idCList []))
          init_state).1).1.stubs "f"
      = Option.some (StubInfo.mk true "void*" ["void*"] []) :=
  claim_C5 ["f"] "f" init_state [] ["x"] (by decide) rfl

/-- Claim C2 witness: concrete firing of a record with two subscribers, and
the walk-produced record of the one-call translation unit. -/
theorem claim_C2_witness :
    ((StubInfo.mk true "void*" [] [7, 8]).fire "int").2
      = ([7, 8] : List Nat).map (fun c => (c, "int")) ∧
    (((StubInfo.mk true "void*" [] [7, 8]).fire "int").2.count (7, "int"))
      = ([7, 8] : List Nat).count 7 ∧
    (((StubInfo.mk true "void*" [] [7, 8]).fire "int").1.cbs = []) ∧
    ((((StubInfo.mk true "void*" [] [7, 8]).fire "int").1.fire "char").2
      = []) ∧
    (StubInfo.mk true "void*" ["void"] []).cbs = [] :=
  claim_C2 (StubInfo.mk true "void*" [] [7, 8]) "int" "char" 7 ["f"]
    oneCallTU "f" (StubInfo.mk true "void*" ["void"] []) rfl

/-- Claim C6 counterexample: for the registry holding the single stub
record `helper : void* (int*)`, the emitted text is one definition whose
signature lists only the parameter type `int*` — the synthesized parameter
name `arg0` referenced by the discard statement does not occur in the
parameter list — and no declaration (`void* helper(int*);`) occurs anywhere
in the output. -/
theorem claim_C6_cex :
    emit_stubs helperReg
      = "void* helper(int*) \x7b\n    (void)arg0;\n    return 0;\x7d\n" ∧
    hasChunk ("void* helper(int*);").data (emit_stubs helperReg).data
      = false ∧
    hasChunk ("arg0").data ("int*").data = false :=
  ⟨rfl, by decide, by decide⟩

set_option maxHeartbeats 1000000 in
/-- Claim C6 (amended): for every record flagged as a stub the emitter
outputs exactly one function definition and no separate declaration; the
definition's signature holds the comma-joined parameter types only (or
`void` when there are none) without parameter names, its body references
every synthesized parameter name `arg0, …` in the no-op discard statement,
and, when the (stripped) return type is not `void`, contains a
`return 0;` statement. -/
theorem claim_C6 (m : Stubs) (name : String) (info : StubInfo) (i : Nat)
    (hall : ∀ p ∈ m, p.2.is_stub = true)
    (hmem : (name, info) ∈ m)
    (hi : i < info.param_types.length)
    (hnv : pyStrip info.ret_type ≠ "void") :
    (emit_pieces m).length = m.length ∧
    render_stub name info ∈ emit_pieces m ∧
    hasChunk ("arg" ++ toString i).data (render_stub name info).data = true ∧
    hasChunk ("return 0;").data (render_stub name info).data = true := by
  refine ⟨?_, ?_, ?_, ?_⟩
  · unfold emit_pieces
    rw [List.length_map, List.filter_eq_self.mpr hall]
  · unfold emit_pieces
    exact List.mem_map.mpr ⟨(name, info),
      List.mem_filter.mpr ⟨hmem, hall _ hmem⟩, rfl⟩
  · simp only [render_stub]
    apply hasChunk_str_append_left
    apply hasChunk_str_append_left
    apply hasChunk_str_append_left
    apply hasChunk_str_append_right
    exact arg_chunk_in_dummy info.param_types i hi
  · simp only [render_stub]
    apply hasChunk_str_append_left
    apply hasChunk_str_append_right
    rw [if_neg hnv]
    decide

/-- Claim C6 witness: the concrete one-record registry — one rendered
piece, membership of its rendering, and containment of `arg0` and
`return 0;` in the rendered definition. -/
theorem claim_C6_witness :
    (emit_pieces helperReg).length = helperReg.length ∧
    render_stub "helper" (StubInfo.mk true "void*" ["int*"] [])
      ∈ emit_pieces helperReg ∧
    hasChunk ("arg" ++ toString 0).data
      (render_stub "helper" (StubInfo.mk true "void*" ["int*"] [])).data
      = true ∧
    hasChunk ("return 0;").data
      (render_stub "helper" (StubInfo.mk true "void*" ["int*"] [])).data
      = true :=
  claim_C6 helperReg "helper" (StubInfo.mk true "void*" ["int*"] []) 0
    (by decide) (by decide) (by decide) (by decide)

end ScopeAnalyzer
